import Mathlib

/-!
Verification of the proc-macro-stats pipeline (src/main.rs) against its
specification. Each Rust function the claims touch is shallowly embedded as
an executable Lean definition; external effects (file reads, JSON/TOML
parsing done by serde, network fetches, tar extraction) are modelled as
explicit inputs: a line read is an `Except` of an `Except` (I/O result of a
parse result), the archive is a list of entry read results, the cache is the
set of paths present on disk, and network activity is counted.
-/

/-- Embeds the `GitIndexEntry` struct of src/main.rs (name, vers, yanked);
the other JSON fields are ignored by the program. -/
structure GitIndexEntry where
  name : String
  vers : String
  yanked : Bool
deriving DecidableEq, Repr

/-- One line of an index file as the program sees it: the outer `Except` is
the `io::Result` produced by `BufReader::lines`, the inner one the
`serde_json::from_str` parse result for the line's text. -/
abbrev LineRead := Except Unit (Except Unit GitIndexEntry)

/-- Embeds the `while let Some(Ok(line)) = contents.next()` loop of
`parse_index` (src/main.rs lines 100-107), already running on the reversed
line sequence: a read error ends the loop silently with the entries collected
so far (none), a parse error aborts the file with `Err`, a yanked record is
skipped, and the first non-yanked record is pushed and the loop breaks. -/
def scanBack : List LineRead → Except Unit (List GitIndexEntry)
  | [] => .ok []
  | .error _ :: _ => .ok []
  | .ok (.error e) :: _ => .error e
  | .ok (.ok entry) :: rest =>
    if entry.yanked then scanBack rest else .ok [entry]

/-- The per-file body of `parse_index`: reverse the file's lines and run the
backward scan. -/
def parse_index_file (lines : List LineRead) : Except Unit (List GitIndexEntry) :=
  scanBack lines.reverse

/-- The `collect::<Result<Vec<_>>>` over all index files in `parse_index`:
any file failure aborts the batch. -/
def collectResults : List (List LineRead) → Except Unit (List (List GitIndexEntry))
  | [] => .ok []
  | f :: fs =>
    match parse_index_file f with
    | .error e => .error e
    | .ok v =>
      match collectResults fs with
      | .error e => .error e
      | .ok vs => .ok (v :: vs)

/-- Embeds `parse_index` (src/main.rs lines 89-121): resolve every file,
abort on any file error, then flatten the per-file results. -/
def parse_index (files : List (List LineRead)) : Except Unit (List GitIndexEntry) :=
  match collectResults files with
  | .error e => .error e
  | .ok vs => .ok vs.flatten

/-- A well-formed index file: every line reads and parses successfully into
the given records, oldest first. -/
def fileOf (rs : List GitIndexEntry) : List LineRead :=
  rs.map (fun r => .ok (.ok r))

theorem scanBack_fileOf (l : List GitIndexEntry) :
    scanBack (l.map (fun r => .ok (.ok r))) =
      .ok ((l.find? (fun r => !r.yanked)).toList) := by
  induction l with
  | nil => rfl
  | cons r l ih =>
    by_cases hy : r.yanked = true
    · simp [scanBack, List.find?, hy, ih]
    · simp [scanBack, List.find?, Bool.not_eq_true] at *
      simp [hy]

/-- C1: version resolution scans a well-formed index file's records from the
last line backward; if every record is yanked (in particular if the file is
empty) it yields no resolved package, and if the backward scan finds a
non-yanked record, the file resolves to exactly that record. -/
theorem C1_backward_scan_resolution (rs : List GitIndexEntry) :
    ((∀ r ∈ rs, r.yanked = true) → parse_index_file (fileOf rs) = .ok []) ∧
    (∀ r, rs.reverse.find? (fun x => !x.yanked) = some r →
      parse_index_file (fileOf rs) = .ok [r]) := by
  constructor
  · intro hall
    have : rs.reverse.find? (fun r => !r.yanked) = none := by
      rw [List.find?_eq_none]
      intro x hx
      simp [hall x (List.mem_reverse.mp hx)]
    simp [parse_index_file, fileOf, ← List.map_reverse, scanBack_fileOf, this]
  · intro r hr
    simp [parse_index_file, fileOf, ← List.map_reverse, scanBack_fileOf, hr]

/-- Witness for C1 at a concrete file: the last record is yanked but an
earlier record is not, and resolution returns that earlier record. -/
theorem C1_backward_scan_resolution_witness :
    parse_index_file (fileOf
      [⟨"serde", "1.0.0", false⟩, ⟨"serde", "1.0.1", true⟩]) =
      .ok [⟨"serde", "1.0.0", false⟩] :=
  (C1_backward_scan_resolution
      [⟨"serde", "1.0.0", false⟩, ⟨"serde", "1.0.1", true⟩]).2
    ⟨"serde", "1.0.0", false⟩ (by decide)

theorem scanBack_yanked_run (pre : List GitIndexEntry) (tail : List LineRead)
    (hpre : ∀ r ∈ pre, r.yanked = true) :
    scanBack (pre.map (fun r => .ok (.ok r)) ++ tail) = scanBack tail := by
  induction pre with
  | nil => rfl
  | cons r l ih =>
    have hy : r.yanked = true := hpre r (by simp)
    simp [scanBack, hy, ih fun x hx => hpre x (by simp [hx])]

/-- C10: a line-read error hit by the backward scan while only yanked
records have been seen ends the scan silently: the file resolves to zero
entries with an `Ok`, and a batch consisting of that file alone also
succeeds with zero resolved packages. -/
theorem C10_read_error_silent (lines : List LineRead) (pre : List GitIndexEntry)
    (rest : List LineRead)
    (h : lines.reverse = pre.map (fun r => .ok (.ok r)) ++ .error () :: rest)
    (hpre : ∀ r ∈ pre, r.yanked = true) :
    parse_index_file lines = .ok [] ∧ parse_index [lines] = .ok [] := by
  have hfile : parse_index_file lines = .ok [] := by
    rw [parse_index_file, h, scanBack_yanked_run pre _ hpre]
    rfl
  exact ⟨hfile, by simp [parse_index, collectResults, hfile]⟩

/-- Witness for C10: a file whose last line fails to read but whose later
(in scan order, earlier in the file) lines are fine contributes nothing. -/
theorem C10_read_error_silent_witness :
    parse_index_file [.ok (.ok ⟨"serde", "1.0.0", false⟩), .error ()] = .ok [] ∧
    parse_index [[.ok (.ok ⟨"serde", "1.0.0", false⟩), .error ()]] = .ok [] :=
  C10_read_error_silent _ [] [.ok (.ok ⟨"serde", "1.0.0", false⟩)] rfl
    (by intro r hr; cases hr)

/-- The concrete file refuting C4 as universally stated: its first line is
malformed, but its last line parses to a non-yanked record. -/
def C4_file : List LineRead :=
  [.ok (.error ()), .ok (.ok ⟨"serde", "1.0.0", false⟩)]

/-- Counterexample to C4 as stated: this file contains a malformed line,
yet its resolution succeeds (the backward scan returns the last record
before ever reaching the malformed line), so a malformed line does not
always cause the file's resolution to fail. -/
theorem C4_counterexample :
    C4_file[0]? = some (.ok (.error ())) ∧
    parse_index_file C4_file = .ok [⟨"serde", "1.0.0", false⟩] ∧
    parse_index [C4_file] = .ok [⟨"serde", "1.0.0", false⟩] ∧
    parse_index_file C4_file ≠ .error () :=
  ⟨rfl, rfl, rfl, fun h => Except.noConfusion h⟩

theorem collectResults_error_of_mem (lines : List LineRead)
    (hfile : parse_index_file lines = .error ()) :
    ∀ files₁ files₂, collectResults (files₁ ++ lines :: files₂) = .error () := by
  intro files₁ files₂
  induction files₁ with
  | nil => simp [collectResults, hfile]
  | cons f fs ih =>
    simp only [List.cons_append, collectResults]
    cases hf : parse_index_file f with
    | error e => cases e; rfl
    | ok v =>
      simp only [List.append_eq]
      rw [ih]

/-- C4 (amended): a malformed line aborts the file only when the backward
scan reaches it, i.e. when every successfully parsed line after it (toward
the end of the file) is yanked; in that case the file resolves to an error
and any batch containing the file aborts. -/
theorem C4_malformed_line (lines : List LineRead) (pre : List GitIndexEntry)
    (rest : List LineRead)
    (h : lines.reverse = pre.map (fun r => .ok (.ok r)) ++ .ok (.error ()) :: rest)
    (hpre : ∀ r ∈ pre, r.yanked = true) :
    parse_index_file lines = .error () ∧
    ∀ files₁ files₂, parse_index (files₁ ++ lines :: files₂) = .error () := by
  have hfile : parse_index_file lines = .error () := by
    rw [parse_index_file, h, scanBack_yanked_run pre _ hpre]
    rfl
  refine ⟨hfile, fun files₁ files₂ => ?_⟩
  rw [parse_index, collectResults_error_of_mem lines hfile files₁ files₂]

/-- Witness for C4 (amended): a file whose last record is yanked and whose
next-to-last line is malformed fails, and the batch fails with it. -/
theorem C4_malformed_line_witness :
    parse_index_file [.ok (.error ()), .ok (.ok ⟨"serde", "1.0.1", true⟩)] =
      .error () ∧
    parse_index [[.ok (.error ()), .ok (.ok ⟨"serde", "1.0.1", true⟩)]] =
      .error () := by
  have h := C4_malformed_line
    [.ok (.error ()), .ok (.ok ⟨"serde", "1.0.1", true⟩)]
    [⟨"serde", "1.0.1", true⟩] [] rfl (by decide)
  exact ⟨h.1, by simpa using h.2 [] []⟩

/-- The `CARGO_TOML_CACHE` constant of src/main.rs. -/
def CARGO_TOML_CACHE : String := "toml_cache"

/-- Embeds `get_cache_name` (src/main.rs lines 179-195), with a `PathBuf`
modelled as its list of pushed components. Rust's `str::len` is the UTF-8
byte length, so the match is on `utf8ByteSize`; `chars()` walks characters,
so components are built from `toList`. The `create_dir_all` side effect is
not part of the returned value. -/
def get_cache_name (crate_name : String) : List String :=
  match crate_name.utf8ByteSize with
  | 1 => [CARGO_TOML_CACHE, "1"]
  | 2 => [CARGO_TOML_CACHE, "2"]
  | 3 => [CARGO_TOML_CACHE, "3", String.mk (crate_name.toList.take 1)]
  | _ => [CARGO_TOML_CACHE, String.mk (crate_name.toList.take 2),
      String.mk ((crate_name.toList.drop 2).take 2)]

/-- C9: sharding is a pure function of the name: byte-length 1 names shard to
"1", length 2 to "2", length 3 to "3/<first char>", length ≥ 4 to
"<first two chars>/<next two chars>"; in particular `a`, `ab`, `abc` and
`abcdxyz` shard to `1`, `2`, `3/a` and `ab/cd`. -/
theorem C9_sharding (name : String) :
    (name.utf8ByteSize = 1 → get_cache_name name = [CARGO_TOML_CACHE, "1"]) ∧
    (name.utf8ByteSize = 2 → get_cache_name name = [CARGO_TOML_CACHE, "2"]) ∧
    (name.utf8ByteSize = 3 →
      get_cache_name name =
        [CARGO_TOML_CACHE, "3", String.mk (name.toList.take 1)]) ∧
    (4 ≤ name.utf8ByteSize →
      get_cache_name name =
        [CARGO_TOML_CACHE, String.mk (name.toList.take 2),
          String.mk ((name.toList.drop 2).take 2)]) ∧
    get_cache_name "a" = ["toml_cache", "1"] ∧
    get_cache_name "ab" = ["toml_cache", "2"] ∧
    get_cache_name "abc" = ["toml_cache", "3", "a"] ∧
    get_cache_name "abcdxyz" = ["toml_cache", "ab", "cd"] := by
  refine ⟨fun h => ?_, fun h => ?_, fun h => ?_, fun h => ?_, ?_, ?_, ?_, ?_⟩
  · rw [get_cache_name, h]
  · rw [get_cache_name, h]
  · rw [get_cache_name, h]
  · rw [get_cache_name]
    have h1 : name.utf8ByteSize ≠ 1 := by omega
    have h2 : name.utf8ByteSize ≠ 2 := by omega
    have h3 : name.utf8ByteSize ≠ 3 := by omega
    split
    · omega
    · omega
    · omega
    · rfl
  · rfl
  · rfl
  · rfl
  · rfl

/-- Witness for C9 at the literal inputs of the spec. -/
theorem C9_sharding_witness :
    get_cache_name "abcdxyz" =
      [CARGO_TOML_CACHE, String.mk ("abcdxyz".toList.take 2),
        String.mk (("abcdxyz".toList.drop 2).take 2)] :=
  (C9_sharding "abcdxyz").2.2.2.1 (by decide)

/-- A tar entry as the program sees it: its path inside the archive,
modelled as components. -/
structure ArchiveEntry where
  path : List String
deriving DecidableEq, Repr

/-- An element of `archive.entries()`: the iterator yields `Result`s and
`check_and_download_crates` skips the failed ones (`if let Ok(mut entry)`). -/
abbrev EntryRead := Except Unit ArchiveEntry

/-- Embeds the entry loop of `check_and_download_crates` (src/main.rs lines
161-171): walk the entries in order, skip unreadable ones, and return the
first entry whose base filename (`Path::file_name`, here the last path
component) is `Cargo.toml`; `break` after it, so later entries are never
inspected. Returns `none` when no entry matches. -/
def extract_manifest : List EntryRead → Option ArchiveEntry
  | [] => none
  | .error _ :: rest => extract_manifest rest
  | .ok e :: rest =>
    if e.path.getLast? = some "Cargo.toml" then some e else extract_manifest rest

/-- The cache path of a (name, vers) manifest, as computed at src/main.rs
lines 139-144: `get_cache_name(name)/<name>-<vers>/Cargo.toml`. -/
def toml_path (name vers : String) : List String :=
  get_cache_name name ++ [name ++ "-" ++ vers, "Cargo.toml"]

/-- Embeds the per-package body of `check_and_download_crates` (src/main.rs
lines 136-172). The filesystem is the set of paths present; the second
component counts network fetches. On a hit (the manifest path exists)
nothing happens; on a miss the crate is fetched (one network operation) and
`entry.unpack_in(path)` places the matching entry at its archive-internal
path under the shard directory — which is the manifest path only when the
entry sits at `<name>-<vers>/Cargo.toml` inside the archive. A miss with no
matching entry still returns `Ok` and produces no file. -/
def check_and_download_one (archive : List EntryRead) (st : List (List String))
    (name vers : String) : List (List String) × Nat :=
  if toml_path name vers ∈ st then (st, 0)
  else
    match extract_manifest archive with
    | some e => ((get_cache_name name ++ e.path) :: st, 1)
    | none => (st, 1)

/-- C7: extraction scans entries in order and takes the first match: if no
entry before `e` matches and `e`'s base filename is `Cargo.toml`, the result
is `e` regardless of what follows it (the loop breaks there); and if no
entry matches at all, extraction yields nothing and the cache-miss path
still succeeds with the filesystem unchanged. -/
theorem C7_extract_first_match (es₁ es₂ es₃ : List EntryRead) (e : ArchiveEntry)
    (archive : List EntryRead) (st : List (List String)) (name vers : String) :
    ((∀ x ∈ es₁, ∀ a, x = .ok a → a.path.getLast? ≠ some "Cargo.toml") →
      e.path.getLast? = some "Cargo.toml" →
      extract_manifest (es₁ ++ .ok e :: es₂) = some e ∧
      extract_manifest (es₁ ++ .ok e :: es₂) =
        extract_manifest (es₁ ++ .ok e :: es₃)) ∧
    ((∀ x ∈ archive, ∀ a, x = .ok a → a.path.getLast? ≠ some "Cargo.toml") →
      extract_manifest archive = none) ∧
    (extract_manifest archive = none → toml_path name vers ∉ st →
      check_and_download_one archive st name vers = (st, 1)) := by
  have key : ∀ (l : List EntryRead),
      (∀ x ∈ l, ∀ a, x = .ok a → a.path.getLast? ≠ some "Cargo.toml") →
      ∀ tail, extract_manifest (l ++ tail) = extract_manifest tail := by
    intro l hl
    induction l with
    | nil => intro tail; rfl
    | cons x xs ih =>
      intro tail
      have hxs : ∀ x ∈ xs, ∀ a, x = .ok a → a.path.getLast? ≠ some "Cargo.toml" :=
        fun y hy => hl y (by simp [hy])
      cases x with
      | error u => simpa [extract_manifest] using ih hxs tail
      | ok a =>
        have : a.path.getLast? ≠ some "Cargo.toml" := hl (.ok a) (by simp) a rfl
        simpa [extract_manifest, this] using ih hxs tail
  refine ⟨fun h₁ he => ?_, fun h => ?_, fun hn hmem => ?_⟩
  · constructor
    · rw [key es₁ h₁ (.ok e :: es₂)]
      simp [extract_manifest, he]
    · rw [key es₁ h₁ (.ok e :: es₂), key es₁ h₁ (.ok e :: es₃)]
      simp [extract_manifest, he]
  · simpa using key archive h []
  · simp [check_and_download_one, hmem, hn]

/-- Witness for C7: in a concrete archive the first matching entry is
extracted, entries after it are irrelevant, and an archive with no manifest
entry leaves the filesystem untouched. -/
theorem C7_extract_first_match_witness :
    extract_manifest
      [.error (), .ok ⟨["src", "lib.rs"]⟩, .ok ⟨["x-1", "Cargo.toml"]⟩,
        .ok ⟨["y-2", "Cargo.toml"]⟩] = some ⟨["x-1", "Cargo.toml"]⟩ ∧
    check_and_download_one [.ok ⟨["src", "lib.rs"]⟩] [] "ab" "1" = ([], 1) := by
  refine ⟨?_, ?_⟩
  · refine ((C7_extract_first_match [.error (), .ok ⟨["src", "lib.rs"]⟩]
      [.ok ⟨["y-2", "Cargo.toml"]⟩] [] ⟨["x-1", "Cargo.toml"]⟩ [] [] "ab" "1").1
      ?_ (by decide)).1
    rintro x hx a rfl
    simp only [List.mem_cons, List.not_mem_nil, or_false] at hx
    rcases hx with hx | hx
    · cases hx
    · cases hx
      decide
  · exact (C7_extract_first_match [] [] [] ⟨[]⟩ [.ok ⟨["src", "lib.rs"]⟩]
      [] "ab" "1").2.2 (by decide) (by decide)

/-- Counterexample to C3 as stated: for an archive with no `Cargo.toml`
entry, a cache miss fetches over the network but produces no file, so the
second call for the same (name, version) misses and fetches again — two
network operations in two calls, not at most one; the second call is not a
pure cache hit. -/
theorem C3_counterexample :
    ¬ ((check_and_download_one [.ok ⟨["src", "lib.rs"]⟩] [] "ab" "1").2 +
        (check_and_download_one [.ok ⟨["src", "lib.rs"]⟩]
          (check_and_download_one [.ok ⟨["src", "lib.rs"]⟩] [] "ab" "1").1
          "ab" "1").2 ≤ 1) := by decide

/-- C3 (amended): if the manifest already exists at its computed cache path
the operation returns the state unchanged with zero network operations; and
whenever the archive's extracted entry lands at that computed path (the
entry sits at `<name>-<vers>/Cargo.toml`, the normal crate layout), two
consecutive calls for the same (name, version) perform at most one network
fetch — the second call is then a pure cache hit. -/
theorem C3_cache_idempotent (archive : List EntryRead) (st : List (List String))
    (name vers : String) :
    (toml_path name vers ∈ st →
      check_and_download_one archive st name vers = (st, 0)) ∧
    (∀ e, extract_manifest archive = some e →
      get_cache_name name ++ e.path = toml_path name vers →
      (check_and_download_one archive st name vers).2 +
        (check_and_download_one archive
          (check_and_download_one archive st name vers).1 name vers).2 ≤ 1) := by
  constructor
  · intro h
    simp [check_and_download_one, h]
  · intro e he hpath
    by_cases h : toml_path name vers ∈ st
    · simp [check_and_download_one, h]
    · have h1 : check_and_download_one archive st name vers =
          ((get_cache_name name ++ e.path) :: st, 1) := by
        simp [check_and_download_one, h, he]
      rw [h1]
      have h2 : toml_path name vers ∈ (get_cache_name name ++ e.path) :: st := by
        rw [hpath.symm]
        exact List.mem_cons_self _ _
      simp [check_and_download_one, h2]

/-- Witness for C3 (amended): with the crate's normal archive layout, a
fresh cache plus two calls cost exactly one fetch, and a pre-populated
cache costs zero. -/
theorem C3_cache_idempotent_witness :
    check_and_download_one [.ok ⟨["ab-1", "Cargo.toml"]⟩]
        [toml_path "ab" "1"] "ab" "1" = ([toml_path "ab" "1"], 0) ∧
    (check_and_download_one [.ok ⟨["ab-1", "Cargo.toml"]⟩] [] "ab" "1").2 +
      (check_and_download_one [.ok ⟨["ab-1", "Cargo.toml"]⟩]
        (check_and_download_one [.ok ⟨["ab-1", "Cargo.toml"]⟩] [] "ab" "1").1
        "ab" "1").2 ≤ 1 :=
  ⟨(C3_cache_idempotent [.ok ⟨["ab-1", "Cargo.toml"]⟩] [toml_path "ab" "1"]
      "ab" "1").1 (by decide),
    (C3_cache_idempotent [.ok ⟨["ab-1", "Cargo.toml"]⟩] [] "ab" "1").2
      ⟨["ab-1", "Cargo.toml"]⟩ (by decide) (by decide)⟩

/-- Embeds the `TomlPackage` struct of src/main.rs. -/
structure TomlPackage where
  name : String
deriving DecidableEq, Repr

/-- Embeds the `TomlLib` struct of src/main.rs; the field carries the serde
alias `proc-macro`. -/
structure TomlLib where
  proc_macro : Option Bool
deriving DecidableEq, Repr

/-- Embeds the `CargoToml` struct of src/main.rs. The `package` field
carries the serde alias `project`. `dependencies` is a
`BTreeMap<String, toml::Value>` whose values the program never reads (only
keys are removed, counted and collected), so it is modelled as the list of
its keys. -/
structure CargoToml where
  package : TomlPackage
  lib : Option TomlLib
  dependencies : Option (List String)
deriving DecidableEq, Repr

/-- A TOML value, as far as the program's three structs inspect one. -/
inductive TomlItem where
  | str (s : String)
  | boolean (b : Bool)
  | table (kvs : List (String × TomlItem))

/-- Serde field lookup: the first key of the table that matches one of the
field's accepted names (its Rust name or a declared alias). -/
def lookupKeys (kvs : List (String × TomlItem)) (names : List String) :
    Option TomlItem :=
  (kvs.find? (fun kv => names.contains kv.1)).map (fun kv => kv.2)

/-- Embeds the derived deserializer of `TomlPackage`: a table with a string
`name` field. -/
def decodeTomlPackage : TomlItem → Except Unit TomlPackage
  | .table kvs =>
    match lookupKeys kvs ["name"] with
    | some (.str s) => .ok ⟨s⟩
    | _ => .error ()
  | _ => .error ()

/-- Embeds the derived deserializer of `TomlLib`: the optional boolean flag
is read from `proc_macro` or its alias `proc-macro`; a missing key yields
`none`. -/
def decodeTomlLib : TomlItem → Except Unit TomlLib
  | .table kvs =>
    match lookupKeys kvs ["proc_macro", "proc-macro"] with
    | some (.boolean b) => .ok ⟨some b⟩
    | none => .ok ⟨none⟩
    | some _ => .error ()
  | _ => .error ()

/-- Embeds the deserialization of the `dependencies` map: only its keys are
kept. -/
def decodeDependencies : TomlItem → Except Unit (List String)
  | .table kvs => .ok (kvs.map (fun kv => kv.1))
  | _ => .error ()

/-- An `Option<T>` field: absent is fine, present must decode. -/
def decodeOptField {α : Type} (f : TomlItem → Except Unit α) :
    Option TomlItem → Except Unit (Option α)
  | none => .ok none
  | some it =>
    match f it with
    | .error e => .error e
    | .ok a => .ok (some a)

/-- Embeds the derived deserializer of `CargoToml`: a required package
section read from `package` or its alias `project`, an optional `lib`
section and an optional `dependencies` table. -/
def decodeCargoToml (doc : List (String × TomlItem)) : Except Unit CargoToml :=
  match lookupKeys doc ["package", "project"] with
  | none => .error ()
  | some pkgIt =>
    match decodeTomlPackage pkgIt,
        decodeOptField decodeTomlLib (lookupKeys doc ["lib"]),
        decodeOptField decodeDependencies (lookupKeys doc ["dependencies"]) with
    | .ok pkg, .ok lib, .ok deps => .ok ⟨pkg, lib, deps⟩
    | _, _, _ => .error ()

/-- Embeds the classification predicate of `find_proc_macros`
(src/main.rs line 245):
`toml.lib.as_ref().map(|v| v.proc_macro).flatten().unwrap_or_default()`. -/
def is_macro_like (toml : CargoToml) : Bool :=
  ((toml.lib.map (fun l => l.proc_macro)).join).getD false

/-- A manifest file as the classifier sees it: the outer `Except` is the
`fs::read_to_string` result (whose error the `?` operator propagates), the
inner one the `toml::from_str` parse result (logged and skipped on error). -/
abbrev ManifestRead := Except Unit (Except Unit CargoToml)

/-- Embeds `find_proc_macros` (src/main.rs lines 231-260): walk the cached
manifest files, abort on a read error, log-and-skip a parse error, and keep
the manifests whose classification predicate holds, keyed by the declared
package name. -/
def find_proc_macros : List ManifestRead → Except Unit (List (String × CargoToml))
  | [] => .ok []
  | .error e :: _ => .error e
  | .ok (.error _) :: fs => find_proc_macros fs
  | .ok (.ok toml) :: fs =>
    match find_proc_macros fs with
    | .error e => .error e
    | .ok rest =>
      .ok (if is_macro_like toml then (toml.package.name, toml) :: rest else rest)

/-- C5: a manifest is classified macro-like iff its library section is
present and carries the flag set to true; a missing section or missing
flag classifies as false; and the legacy `project` section name and the
legacy `proc-macro` flag spelling decode exactly as the modern names do. -/
theorem C5_classification (t : CargoToml) (l : TomlLib) (item : TomlItem)
    (rest : List (String × TomlItem)) (kvs : List (String × TomlItem)) :
    (is_macro_like t = true ↔
      ∃ lb, t.lib = some lb ∧ lb.proc_macro = some true) ∧
    (t.lib = none → is_macro_like t = false) ∧
    (t.lib = some l → l.proc_macro = none → is_macro_like t = false) ∧
    (decodeCargoToml (("project", item) :: rest) =
      decodeCargoToml (("package", item) :: rest)) ∧
    (decodeTomlLib (.table (("proc-macro", item) :: kvs)) =
      decodeTomlLib (.table (("proc_macro", item) :: kvs))) := by
  refine ⟨?_, fun h => ?_, fun h h2 => ?_, ?_, ?_⟩
  · obtain ⟨pkg, lib, deps⟩ := t
    cases lib with
    | none => simp [is_macro_like]
    | some lb =>
      cases hb : lb.proc_macro with
      | none => simp [is_macro_like, hb]
      | some b => cases b <;> simp [is_macro_like, hb]
  · simp [is_macro_like, h]
  · simp [is_macro_like, h, h2]
  · rfl
  · rfl

/-- Witness for C5: a manifest with a true flag is classified macro-like,
one with no library section is not. -/
theorem C5_classification_witness :
    is_macro_like ⟨⟨"serde_derive"⟩, some ⟨some true⟩, none⟩ = true ∧
    is_macro_like ⟨⟨"serde"⟩, none, none⟩ = false :=
  ⟨(C5_classification ⟨⟨"serde_derive"⟩, some ⟨some true⟩, none⟩ ⟨none⟩
        (.str "") [] []).1.mpr ⟨⟨some true⟩, rfl, rfl⟩,
    (C5_classification ⟨⟨"serde"⟩, none, none⟩ ⟨none⟩ (.str "") [] []).2.1 rfl⟩

/-- C8: a manifest whose parse fails is skipped and the classifier carries
on over the remaining files exactly as if the bad file were absent — in
particular a single malformed manifest never turns the run into an error. -/
theorem C8_parse_failure_skipped (fs₁ fs₂ : List ManifestRead) :
    find_proc_macros (fs₁ ++ .ok (.error ()) :: fs₂) =
      find_proc_macros (fs₁ ++ fs₂) := by
  induction fs₁ with
  | nil => rfl
  | cons f fs ih =>
    cases f with
    | error e => rfl
    | ok p =>
      cases p with
      | error u => simpa [find_proc_macros] using ih
      | ok toml =>
        simp only [List.cons_append, find_proc_macros, List.append_eq]
        rw [ih]

/-- The `NORMAL_DEPS` allow-list of src/main.rs lines 262-282. -/
def NORMAL_DEPS : List String :=
  ["syn", "proc-macro2", "quote", "proc-macro-error", "proc-macro-crate",
    "proc-macro-hack", "darling", "heck", "lazy_static", "regex", "Inflector",
    "anyhow", "convert_case", "itertools", "once_cell", "rand", "synstructure",
    "unicode-xid", "failure"]

/-- The `for dep in NORMAL_DEPS { deps.remove(dep) }` loop of
`find_weird_dependencies`, over an arbitrary removal list: each removal
deletes one key from the map, modelled as filtering that key out of the key
list. -/
def remove_deps (normals : List String) (deps : List String) : List String :=
  normals.foldl (fun ds n => ds.filter (fun d => d != n)) deps

/-- The body of the `filter_map` in `find_weird_dependencies`
(src/main.rs lines 288-299), on one classified manifest: take its
dependency map (a manifest without one is dropped by the `?` inside
`filter_map`), remove every allow-listed key, and drop the package if the
residual map is empty. -/
def weird_entry (p : String × CargoToml) : Option (String × CargoToml) :=
  match p.2.dependencies with
  | none => none
  | some deps =>
    let deps := remove_deps NORMAL_DEPS deps
    if deps.isEmpty then none
    else some (p.1, { p.2 with dependencies := some deps })

/-- Embeds `find_weird_dependencies` (src/main.rs lines 284-304). -/
def find_weird_dependencies (mapping : List (String × CargoToml)) :
    List (String × CargoToml) :=
  mapping.filterMap weird_entry

theorem remove_deps_eq_filter (normals deps : List String) :
    remove_deps normals deps =
      deps.filter (fun d => !(normals.contains d)) := by
  induction normals generalizing deps with
  | nil => simp [remove_deps]
  | cons n ns ih =>
    rw [remove_deps, List.foldl_cons, ← remove_deps, ih, List.filter_filter]
    congr 1
    funext d
    by_cases hd : d = n <;> simp [hd, List.contains_cons, Bool.and_comm]

theorem remove_deps_idem (normals deps : List String) :
    remove_deps normals (remove_deps normals deps) = remove_deps normals deps := by
  rw [remove_deps_eq_filter, remove_deps_eq_filter, List.filter_filter]
  simp

theorem weird_entry_idem (p : String × CargoToml) :
    (weird_entry p).bind weird_entry = weird_entry p := by
  cases hd : p.2.dependencies with
  | none => simp [weird_entry, hd]
  | some ds =>
    by_cases he : (remove_deps NORMAL_DEPS ds).isEmpty = true
    · simp [weird_entry, hd, he]
    · have he2 : remove_deps NORMAL_DEPS ds ≠ [] := by
        simpa [List.isEmpty_iff] using he
      simp [weird_entry, hd, he, remove_deps_idem, he2]

/-- C6: removal deletes exactly the allow-listed names (and nothing else),
is insensitive to the order of the allow-list, a package whose residual
dependency set is empty (or that has no dependency map at all) disappears
from the result, and the whole strip-and-drop step is idempotent. -/
theorem C6_strip_and_drop (m l₁ l₂ : List (String × CargoToml))
    (deps perm : List String) (name : String) (toml : CargoToml) :
    (remove_deps NORMAL_DEPS deps =
      deps.filter (fun d => !(NORMAL_DEPS.contains d))) ∧
    (perm.Perm NORMAL_DEPS →
      remove_deps perm deps = remove_deps NORMAL_DEPS deps) ∧
    ((toml.dependencies = none ∨
        ∃ ds, toml.dependencies = some ds ∧ remove_deps NORMAL_DEPS ds = []) →
      find_weird_dependencies (l₁ ++ (name, toml) :: l₂) =
        find_weird_dependencies (l₁ ++ l₂)) ∧
    (find_weird_dependencies (find_weird_dependencies m) =
      find_weird_dependencies m) := by
  refine ⟨remove_deps_eq_filter _ _, fun hp => ?_, fun hdrop => ?_, ?_⟩
  · rw [remove_deps_eq_filter, remove_deps_eq_filter]
    apply List.filter_congr
    intro d _
    simp [hp.mem_iff]
  · have hnone : weird_entry (name, toml) = none := by
      rcases hdrop with h | ⟨ds, hds, hrm⟩
      · simp [weird_entry, h]
      · simp [weird_entry, hds, hrm]
    simp [find_weird_dependencies, List.filterMap_append, List.filterMap_cons,
      hnone]
  · simp only [find_weird_dependencies, List.filterMap_filterMap]
    congr 1
    funext p
    exact weird_entry_idem p

/-- Witness for C6: a manifest using only `syn` disappears, and the
reversed allow-list strips the same names. -/
theorem C6_strip_and_drop_witness :
    find_weird_dependencies [("p", ⟨⟨"p"⟩, some ⟨some true⟩, some ["syn"]⟩)] =
      find_weird_dependencies ([] ++ []) ∧
    remove_deps NORMAL_DEPS.reverse ["serde", "syn"] =
      remove_deps NORMAL_DEPS ["serde", "syn"] :=
  ⟨(C6_strip_and_drop [] [] [] [] NORMAL_DEPS.reverse "p"
        ⟨⟨"p"⟩, some ⟨some true⟩, some ["syn"]⟩).2.2.1
      (Or.inr ⟨["syn"], rfl, by decide⟩),
    (C6_strip_and_drop [] [] [] ["serde", "syn"] NORMAL_DEPS.reverse "p"
        ⟨⟨"p"⟩, some ⟨some true⟩, some ["syn"]⟩).2.1 (List.reverse_perm _)⟩

/-- The significance filter of `write_data` (src/main.rs lines 315-321):
keep a package iff
`value.dependencies.as_ref().map(|deps| deps.len()).unwrap_or_default() > 1`. -/
def significant (p : String × CargoToml) : Bool :=
  decide (1 < ((p.2.dependencies.map List.length).getD 0))

/-- One `stats.entry(dep).or_insert(0).fetch_add(1)` step: the frequency
table as a function, incremented at `d`. -/
def bump_stat (stats : String → Nat) (d : String) : String → Nat :=
  fun x => if x = d then stats x + 1 else stats x

/-- The `for dep in &deps` tally loop of `write_data` over one package's
residual dependency names. -/
def tally_deps (deps : List String) (stats : String → Nat) : String → Nat :=
  deps.foldl bump_stat stats

/-- The per-package listing `write_data` serializes into the `data`
artifact: the name and residual dependency names (`into_keys`) of every
package that survives the `> 1` filter. The `.getD []` models the
`unwrap()` at line 326, which the filter makes safe. -/
def write_data_report (data : List (String × CargoToml)) :
    List (String × List String) :=
  (data.filter significant).map (fun p => (p.1, p.2.dependencies.getD []))

/-- The frequency table `write_data` serializes into the `stats` artifact:
each surviving package's residual dependency names tallied into the shared
counter map, starting from empty (every count 0). -/
def write_data_stats (data : List (String × CargoToml)) : String → Nat :=
  (data.filter significant).foldl
    (fun st p => tally_deps (p.2.dependencies.getD []) st) (fun _ => 0)

theorem tally_deps_apply (deps : List String) (st : String → Nat) (x : String) :
    tally_deps deps st x = st x + deps.count x := by
  induction deps generalizing st with
  | nil => simp [tally_deps]
  | cons d ds ih =>
    rw [tally_deps, List.foldl_cons, ← tally_deps, ih, List.count_cons]
    by_cases hx : x = d
    · subst hx
      simp [bump_stat]
      omega
    · have hbd : (d == x) = false := beq_eq_false_iff_ne.mpr (Ne.symm hx)
      simp [bump_stat, hx, hbd]

theorem stats_foldl_count (l : List (String × CargoToml)) (st : String → Nat)
    (x : String) :
    (l.foldl (fun st p => tally_deps (p.2.dependencies.getD []) st) st) x =
      st x + ((l.map (fun p => p.2.dependencies.getD [])).flatten).count x := by
  induction l generalizing st with
  | nil => simp
  | cons p ps ih =>
    rw [List.foldl_cons, ih, tally_deps_apply, List.map_cons, List.flatten_cons,
      List.count_append, Nat.add_assoc]

theorem write_data_stats_count (data : List (String × CargoToml)) (x : String) :
    write_data_stats data x =
      (((data.filter significant).map
        (fun p => p.2.dependencies.getD [])).flatten).count x := by
  rw [write_data_stats, stats_foldl_count]
  exact Nat.zero_add _

/-- C2: a package whose residual dependency set has size exactly 1 is
dropped by the `> 1` significance filter, so it appears in neither the
per-package report nor the frequency table (removing it changes nothing),
while a package with residual size > 1 is listed and bumps the count of
each of its (distinct) residual dependency names by exactly 1. -/
theorem C2_significance_filter (l₁ l₂ : List (String × CargoToml))
    (name : String) (toml : CargoToml) (dep : String) :
    ((toml.dependencies.map List.length).getD 0 = 1 →
      write_data_report (l₁ ++ (name, toml) :: l₂) =
        write_data_report (l₁ ++ l₂) ∧
      write_data_stats (l₁ ++ (name, toml) :: l₂) =
        write_data_stats (l₁ ++ l₂)) ∧
    (1 < (toml.dependencies.map List.length).getD 0 →
      (name, toml.dependencies.getD []) ∈
        write_data_report (l₁ ++ (name, toml) :: l₂) ∧
      (dep ∈ toml.dependencies.getD [] → (toml.dependencies.getD []).Nodup →
        write_data_stats (l₁ ++ (name, toml) :: l₂) dep =
          write_data_stats (l₁ ++ l₂) dep + 1)) := by
  constructor
  · intro h1
    have hsig : significant (name, toml) = false := by
      simp [significant, h1]
    have hfilter : (l₁ ++ (name, toml) :: l₂).filter significant =
        (l₁ ++ l₂).filter significant := by
      simp [List.filter_append, List.filter_cons, hsig]
    constructor
    · rw [write_data_report, hfilter, write_data_report]
    · rw [write_data_stats, hfilter, write_data_stats]
  · intro h1
    have hsig : significant (name, toml) = true := by
      simp [significant, h1]
    have hfilter : (l₁ ++ (name, toml) :: l₂).filter significant =
        l₁.filter significant ++ (name, toml) :: l₂.filter significant := by
      simp [List.filter_append, List.filter_cons, hsig]
    constructor
    · rw [write_data_report, hfilter]
      simp only [List.map_append, List.map_cons]
      exact List.mem_append_right _ (List.mem_cons_self _ _)
    · intro hdep hnodup
      rw [write_data_stats_count, write_data_stats_count, hfilter,
        List.filter_append]
      simp only [List.map_append, List.map_cons, List.flatten_append,
        List.flatten_cons, List.count_append]
      rw [List.count_eq_one_of_mem hnodup hdep]
      omega

/-- Witness for C2 at concrete manifests: a singleton residual set is not
counted, a two-element one bumps a weird dependency's count by one. -/
theorem C2_significance_filter_witness :
    (write_data_report
        [("one", ⟨⟨"one"⟩, some ⟨some true⟩, some ["my-weird-dep"]⟩)] =
      write_data_report ([] ++ []) ∧
    write_data_stats
        [("one", ⟨⟨"one"⟩, some ⟨some true⟩, some ["my-weird-dep"]⟩)] =
      write_data_stats ([] ++ [])) ∧
    write_data_stats
        [("two", ⟨⟨"two"⟩, some ⟨some true⟩, some ["my-weird-dep", "serde"]⟩)]
        "serde" =
      write_data_stats ([] ++ []) "serde" + 1 :=
  ⟨(C2_significance_filter [] [] "one"
      ⟨⟨"one"⟩, some ⟨some true⟩, some ["my-weird-dep"]⟩ "serde").1 (by decide),
    ((C2_significance_filter [] [] "two"
        ⟨⟨"two"⟩, some ⟨some true⟩, some ["my-weird-dep", "serde"]⟩ "serde").2
      (by decide)).2 (by decide) (by decide)⟩
